import Mathlib

/-!
Shallow embedding of the chiptune playback core from `src/src/app/page.tsx`:
the pitch resolver `noteToFrequency` and the playback scheduler `playSong`.

Modelling conventions:
* JavaScript strings are Lean `String`s, handled through their `List Char` data.
* JavaScript numbers produced by `parseFloat` are modelled by `JsNum`:
  finite values as exact rationals, plus `nan`, `inf`, `negInf`.
* The Web Audio backend is modelled as a recorder: `playSong` returns the list
  of tone instructions it issued (in issue order) together with the outcome the
  user observes (normal return, the odd-token-count alert, or the catch-all
  alert showing a thrown error).  Each issued tone records the MIDI index the
  oscillator frequency was derived from, the duration passed to `osc.stop`,
  and the start time offset from the scheduling origin `ctx.currentTime`.
* Oscillator frequencies are real numbers; `freqOfMidi` is the equal-temperament
  formula `440 * 2^((midi - 69)/12)` the source computes.
-/

namespace Chiptunes

/-! ### Characters and digits -/

/-- ECMAScript whitespace — the characters matched by `\s` and stripped by
`String.prototype.trim`: tab, LF, VT, FF, CR (U+0009–U+000D), space (U+0020),
no-break space (U+00A0), Ogham space mark (U+1680), the Unicode Zs spaces
U+2000–U+200A, line separator (U+2028), paragraph separator (U+2029), narrow
no-break space (U+202F), medium mathematical space (U+205F), ideographic
space (U+3000), and the BOM (U+FEFF). -/
def isWs (c : Char) : Bool :=
  c.toNat = 0x09 || c.toNat = 0x0A || c.toNat = 0x0B || c.toNat = 0x0C
    || c.toNat = 0x0D || c.toNat = 0x20 || c.toNat = 0xA0 || c.toNat = 0x1680
    || (0x2000 ≤ c.toNat && c.toNat ≤ 0x200A)
    || c.toNat = 0x2028 || c.toNat = 0x2029 || c.toNat = 0x202F
    || c.toNat = 0x205F || c.toNat = 0x3000 || c.toNat = 0xFEFF

/-- `\d` of the JavaScript regex: an ASCII decimal digit. -/
def isDigitC (c : Char) : Bool :=
  '0' ≤ c && c ≤ '9'

/-- Numeric value of a digit character. -/
def digitVal (c : Char) : ℕ :=
  c.toNat - '0'.toNat

/-- Value of a big-endian digit list, as `parseInt(oct, 10)` computes it. -/
def natOfDigits (ds : List ℕ) : ℕ :=
  ds.foldl (fun a d => 10 * a + d) 0

/-! ### Pitch resolver: `noteToFrequency` -/

/-- The `[A-G]` character class of the note regex. -/
def isNoteLetter (c : Char) : Bool :=
  'A' ≤ c && c ≤ 'G'

/-- The `(\d+)$` tail of the note regex: one or more digits, then end of
string; returns the octave number `parseInt` would produce. -/
def octDigits? (ds : List Char) : Option ℕ :=
  if !ds.isEmpty && ds.all isDigitC then some (natOfDigits (ds.map digitVal)) else none

/-- The regex match `note.match(/^([A-G])(#|b)?(\d+)$/)`: on success returns
the pitch letter, the accidental's semitone adjustment (+1 for `#`, −1 for
`b`, 0 for none) and the octave number. `none` models the thrown
`Invalid note` error. -/
def parseNote (cs : List Char) : Option (Char × ℤ × ℕ) :=
  match cs with
  | [] => none
  | c :: rest =>
    if isNoteLetter c then
      match rest with
      | a :: ds =>
        if a = '#' then (octDigits? ds).map (fun o => (c, 1, o))
        else if a = 'b' then (octDigits? ds).map (fun o => (c, -1, o))
        else (octDigits? (a :: ds)).map (fun o => (c, 0, o))
      | [] => none
    else none

/-- The `semitones` record of the source: base semitone offset of each pitch
letter (only letters A–G are reachable behind the regex). -/
def semitones (c : Char) : ℤ :=
  if c = 'C' then 0
  else if c = 'D' then 2
  else if c = 'E' then 4
  else if c = 'F' then 5
  else if c = 'G' then 7
  else if c = 'A' then 9
  else if c = 'B' then 11
  else 0

/-- The MIDI index `(octave + 1) * 12 + sem` computed by `noteToFrequency`
(with the accidental already folded into `sem`); `none` models the thrown
`Invalid note` error. -/
def midiOfNote (s : String) : Option ℤ :=
  (parseNote s.data).map fun x => ((x.2.2 : ℤ) + 1) * 12 + semitones x.1 + x.2.1

/-- The final line of `noteToFrequency`: `440 * Math.pow(2, (midi - 69) / 12)`. -/
noncomputable def freqOfMidi (m : ℤ) : ℝ :=
  440 * (2 : ℝ) ^ (((m : ℝ) - 69) / 12)

/-- `noteToFrequency`: frequency in Hz of a note token, `none` modelling the
thrown `Invalid note` error. -/
noncomputable def noteToFrequency (s : String) : Option ℝ :=
  (midiOfNote s).map freqOfMidi

/-! ### JavaScript numbers and `parseFloat` -/

/-- A JavaScript number as produced by `parseFloat`: an exact finite value,
`NaN`, or an infinity. -/
inductive JsNum
  | num (q : ℚ)
  | nan
  | inf
  | negInf
  deriving DecidableEq, Repr

/-- JavaScript `+` on the fragment of numbers the scheduler adds. -/
def JsNum.add : JsNum → JsNum → JsNum
  | .num a, .num b => .num (a + b)
  | .nan, _ => .nan
  | _, .nan => .nan
  | .inf, .negInf => .nan
  | .negInf, .inf => .nan
  | .inf, _ => .inf
  | _, .inf => .inf
  | .negInf, _ => .negInf
  | _, .negInf => .negInf

/-- Longest run of leading digits of a character list, with the rest. -/
def takeDigits : List Char → List ℕ × List Char
  | [] => ([], [])
  | c :: cs =>
    if isDigitC c then
      let r := takeDigits cs
      (digitVal c :: r.1, r.2)
    else ([], c :: cs)

/-- Exponent part of a JavaScript decimal literal (`e`/`E` already consumed):
returns the signed exponent if at least one digit follows (otherwise the
exponent part is not part of the longest numeric prefix and contributes 0). -/
def parseExponent (cs : List Char) : ℤ :=
  match cs with
  | '+' :: rest => let r := takeDigits rest; if r.1.isEmpty then 0 else (natOfDigits r.1 : ℤ)
  | '-' :: rest => let r := takeDigits rest; if r.1.isEmpty then 0 else -(natOfDigits r.1 : ℤ)
  | cs => let r := takeDigits cs; if r.1.isEmpty then 0 else (natOfDigits r.1 : ℤ)

/-- Ten to a natural power (kept in `ℕ` so that it evaluates by kernel
reduction). -/
def pow10 (n : ℕ) : ℕ :=
  10 ^ n

/-- Scale a rational by `10^e` for a signed exponent `e`. -/
def applyExponent (q : ℚ) (e : ℤ) : ℚ :=
  if 0 ≤ e then q * (pow10 e.toNat : ℚ) else q / (pow10 (-e).toNat : ℚ)

/-- The unsigned decimal part of `parseFloat`: longest prefix of the form
`digits [. digits] [e/E [sign] digits]` with at least one mantissa digit;
`none` when no such prefix exists (the `NaN` case). -/
def parseDecimal (cs : List Char) : Option ℚ :=
  let ip := takeDigits cs
  let fp := match ip.2 with
    | c :: rest => if c = '.' then takeDigits rest else ([], ip.2)
    | [] => ([], ip.2)
  if ip.1.isEmpty && fp.1.isEmpty then none
  else
    let mantissa : ℚ :=
      (natOfDigits ip.1 : ℚ) + (natOfDigits fp.1 : ℚ) / (pow10 fp.1.length : ℚ)
    let expo : ℤ := match fp.2 with
      | c :: rest => if c = 'e' ∨ c = 'E' then parseExponent rest else 0
      | [] => 0
    some (applyExponent mantissa expo)

/-- The tail of `parseFloat` once a sign character has been consumed: either
the literal `Infinity` or the longest decimal prefix; `NaN` when no numeric
prefix exists. -/
def parseFloatBody (cs : List Char) (neg : Bool) : JsNum :=
  if cs.take 8 = "Infinity".data then (if neg then .negInf else .inf)
  else
    match parseDecimal cs with
    | some q => .num (if neg then -q else q)
    | none => .nan

/-- JavaScript `parseFloat`: skip leading whitespace, optional sign, then
either the literal `Infinity` or the longest decimal prefix; `NaN` when no
numeric prefix exists. Trailing garbage after the numeric prefix is ignored. -/
def parseFloat (s : String) : JsNum :=
  match s.data.dropWhile isWs with
  | [] => .nan
  | c :: rest =>
    if c = '+' then parseFloatBody rest false
    else if c = '-' then parseFloatBody rest true
    else parseFloatBody (c :: rest) false

/-! ### Tokenization: `data.trim().split(/\s+/)` -/

/-- JavaScript `String.prototype.trim`. -/
def jsTrim (s : String) : List Char :=
  ((s.data.dropWhile isWs).reverse.dropWhile isWs).reverse

/-- Split a character list on runs of whitespace, dropping empty pieces
(accumulator holds the current token reversed). -/
def splitWsAux : List Char → List Char → List (List Char)
  | [], acc => if acc.isEmpty then [] else [acc.reverse]
  | c :: cs, acc =>
    if isWs c then
      if acc.isEmpty then splitWsAux cs [] else acc.reverse :: splitWsAux cs []
    else splitWsAux cs (c :: acc)

/-- `data.trim().split(/\s+/)`. JavaScript `split` on an empty string returns
`[""]` (the regex finds no match in the empty string), so a blank song yields
one empty token, not zero tokens. -/
def tokenize (data : String) : List String :=
  let t := jsTrim data
  if t.isEmpty then [""] else (splitWsAux t []).map List.asString

/-! ### Playback scheduler: `playSong` -/

/-- One tone instruction issued to the audio backend: the MIDI index its
oscillator frequency `freqOfMidi midi` was computed from, the duration passed
to `osc.stop(t + dur)`, and the start time `t` as an offset from the
scheduling origin `ctx.currentTime`. -/
structure SongEvent where
  midi : ℤ
  dur : JsNum
  startOffset : JsNum
  deriving DecidableEq, Repr

/-- The oscillator frequency of an issued tone, `osc.frequency.value`. -/
noncomputable def SongEvent.freq (e : SongEvent) : ℝ :=
  freqOfMidi e.midi

/-- An exception thrown inside the `try` block of `playSong`; with the backend
modelled as a pure recorder the only throw site is `noteToFrequency`. -/
inductive JsError
  | invalidNote (tok : String)
  deriving DecidableEq, Repr

/-- What the caller of `playSong` observes: a normal return after scheduling,
the `Data must be in "NOTE DURATION" pairs` alert, or the
`Error playing song` alert from the `catch` block. -/
inductive Outcome
  | ok
  | malformedAlert
  | errorAlert (e : JsError)
  deriving DecidableEq, Repr

/-- The `for` loop of `playSong` over the token array, two tokens at a time:
`t` is the current start time (as offset from the origin).  Returns the tone
instructions issued to the backend, in order, and the exception (if any) that
aborted the loop: tones issued before the exception stay issued. -/
def schedulePairs : List String → JsNum → List SongEvent × Option JsError
  | note :: durTok :: rest, t =>
    match midiOfNote note with
    | none => ([], some (.invalidNote note))
    | some m =>
      let dur := parseFloat durTok
      let r := schedulePairs rest (t.add dur)
      (⟨m, dur, t⟩ :: r.1, r.2)
  | _, _ => ([], none)

/-- `playSong`: tokenize, reject an odd token count with the pairing alert
before any backend interaction, then schedule pair by pair; an exception from
the loop is caught and alerted, with already-issued tones kept. -/
def playSong (data : String) : List SongEvent × Outcome :=
  let parts := tokenize data
  if parts.length % 2 ≠ 0 then ([], .malformedAlert)
  else
    let r := schedulePairs parts (.num 0)
    match r.2 with
    | none => (r.1, .ok)
    | some e => (r.1, .errorAlert e)

/-! ### Claim-side (spec-derived) definitions -/

/-- Modelled from the spec's words: the base semitone offset table
{C:0, D:2, E:4, F:5, G:7, A:9, B:11}. -/
def specBaseOffset (c : Char) : ℤ :=
  if c = 'C' then 0
  else if c = 'D' then 2
  else if c = 'E' then 4
  else if c = 'F' then 5
  else if c = 'G' then 7
  else if c = 'A' then 9
  else if c = 'B' then 11
  else 0

/-- Modelled from the spec's words: the accidental's semitone adjustment,
`#` adds one and `b` subtracts one. -/
def accShift (acc : List Char) : ℤ :=
  if acc = ['#'] then 1 else if acc = ['b'] then -1 else 0

/-- Modelled from the spec's words: the note grammar `[A-G](#|b)?[0-9]+` —
one letter A–G, an optional single `#` or `b`, then one or more digits. -/
def matchesGrammar (s : String) : Prop :=
  ∃ (L : Char) (acc ds : List Char),
    s.data = L :: (acc ++ ds) ∧ isNoteLetter L = true ∧
    (acc = [] ∨ acc = ['#'] ∨ acc = ['b']) ∧ ds ≠ [] ∧ ∀ c ∈ ds, isDigitC c = true

/-- Claim-side validity of one duration value: a non-negative finite number. -/
def validDur : JsNum → Bool
  | .num q => decide (0 ≤ q)
  | _ => false

/-- Claim-side validity of a token list: alternating (note, duration) pairs,
every note token valid, every duration token valid; forces an even count. -/
def validPairs : List String → Bool
  | [] => true
  | [_] => false
  | n :: d :: rest => (midiOfNote n).isSome && validDur (parseFloat d) && validPairs rest

/-- Claim-side correspondence: exactly one event per (note, duration) pair, in
input order, the event's pitch resolved from the note token and its duration
parsed from the duration token. -/
def pairCorrespondence : List String → List SongEvent → Prop
  | [], [] => True
  | n :: d :: rest, e :: es =>
      midiOfNote n = some e.midi ∧ e.dur = parseFloat d ∧ pairCorrespondence rest es
  | _, _ => False

/-- Claim-side cumulative-offset chain: the first event starts at the given
offset, and each subsequent event's startOffset is the previous event's
`startOffset + duration`. -/
def offsetsChained : JsNum → List SongEvent → Prop
  | _, [] => True
  | t, e :: es => e.startOffset = t ∧ offsetsChained (e.startOffset.add e.dur) es

/-! ### Theorems -/

/-- **C5 counterexample.** The claim says scheduling the empty song string
succeeds with no error; in fact `playSong ""` takes the malformed-song alert
branch, so it does not succeed. -/
theorem playSong_empty_string_cex :
    (playSong "").2 = Outcome.malformedAlert ∧ Outcome.malformedAlert ≠ Outcome.ok := by
  decide

/-- **C5 (amended).** The empty song string tokenizes (under JavaScript
`split` semantics) to a single empty token, an odd count, so `playSong ""`
fails with the malformed-song alert and produces zero events. -/
theorem playSong_empty_string_malformed :
    tokenize "" = [""] ∧ playSong "" = ([], Outcome.malformedAlert) := by
  decide

/-- **C4 counterexample.** The claim says `schedule("C4 -1 D4 0.5")` fails
with `InvalidDurationError` and produces no events; in fact `playSong` raises
no error there and issues two tone instructions. -/
theorem playSong_no_duration_error_cex :
    (playSong "C4 -1 D4 0.5").2 = Outcome.ok ∧ (playSong "C4 -1 D4 0.5").1 ≠ [] := by
  decide

/-- **C4 (amended).** `playSong` performs no duration validation: the
`parseFloat` value is used as-is, so `"C4 -1 D4 0.5"` schedules two tones
with durations −1 and 0.5 (the second starting at offset −1) and returns
normally, with no `InvalidDurationError`. -/
theorem playSong_negative_duration_scheduled :
    playSong "C4 -1 D4 0.5"
      = ([⟨60, .num (-1), .num 0⟩, ⟨62, .num (1/2), .num (-1)⟩], Outcome.ok) := by
  with_unfolding_all decide

/-- **C3 counterexample.** The claim says a song failing validation produces
no scheduled tone before the error is detected; in fact
`playSong "C4 0.5 H4 0.5"` hits the invalid-note error on the second pair
after already issuing the first pair's tone. -/
theorem playSong_partial_playback_cex :
    (playSong "C4 0.5 H4 0.5").2 = Outcome.errorAlert (.invalidNote "H4")
      ∧ (playSong "C4 0.5 H4 0.5").1 ≠ [] := by
  decide

/-- **C3 (amended).** Scheduling is lazy, pair by pair: a pair whose note
token is valid has its tone issued to the backend before later pairs are
even examined, so an error at a later pair leaves earlier tones scheduled
(partial playback); only the odd-token-count check precedes all backend
interaction. -/
theorem schedulePairs_lazy_pairwise (note durTok : String) (rest : List String)
    (t : JsNum) (m : ℤ) (h : midiOfNote note = some m) :
    schedulePairs (note :: durTok :: rest) t
      = (⟨m, parseFloat durTok, t⟩ :: (schedulePairs rest (t.add (parseFloat durTok))).1,
         (schedulePairs rest (t.add (parseFloat durTok))).2) := by
  simp [schedulePairs, h]

/-- Witness for `schedulePairs_lazy_pairwise` at the concrete song
`C4 0.5 H4 0.5`: the first tone is issued even though the third token is an
invalid note. -/
theorem schedulePairs_lazy_pairwise_witness :
    schedulePairs ["C4", "0.5", "H4", "0.5"] (.num 0)
      = (⟨60, parseFloat "0.5", .num 0⟩
            :: (schedulePairs ["H4", "0.5"] ((JsNum.num 0).add (parseFloat "0.5"))).1,
         (schedulePairs ["H4", "0.5"] ((JsNum.num 0).add (parseFloat "0.5"))).2) :=
  schedulePairs_lazy_pairwise "C4" "0.5" ["H4", "0.5"] (.num 0) 60 (by decide)

theorem octDigits_eq_some (ds : List Char) (h1 : ds ≠ [])
    (h2 : ∀ c ∈ ds, isDigitC c = true) :
    octDigits? ds = some (natOfDigits (ds.map digitVal)) := by
  have hall : ds.all isDigitC = true := List.all_eq_true.mpr h2
  have hne : ds.isEmpty = false := by
    cases ds with
    | nil => exact absurd rfl h1
    | cons a l => rfl
  unfold octDigits?
  simp [hall, hne]

theorem octDigits_isSome_iff (ds : List Char) :
    (octDigits? ds).isSome = true ↔ ds ≠ [] ∧ ∀ c ∈ ds, isDigitC c = true := by
  constructor
  · intro h
    unfold octDigits? at h
    by_cases h1 : ds = []
    · subst h1; simp at h
    · have hne : ds.isEmpty = false := by
        cases ds with
        | nil => exact absurd rfl h1
        | cons a l => rfl
      by_cases h2 : ds.all isDigitC = true
      · exact ⟨h1, List.all_eq_true.mp h2⟩
      · simp [hne, h2] at h
  · intro ⟨h1, h2⟩
    rw [octDigits_eq_some ds h1 h2]
    rfl

theorem parseNote_decomp (L : Char) (acc ds : List Char)
    (hL : isNoteLetter L = true) (hacc : acc = [] ∨ acc = ['#'] ∨ acc = ['b'])
    (hne : ds ≠ []) (hds : ∀ c ∈ ds, isDigitC c = true) :
    parseNote (L :: (acc ++ ds)) = some (L, accShift acc, natOfDigits (ds.map digitVal)) := by
  have hoct := octDigits_eq_some ds hne hds
  rcases hacc with rfl | rfl | rfl
  · cases ds with
    | nil => exact absurd rfl hne
    | cons d ds' =>
      have hd : isDigitC d = true := hds d (by simp)
      have h1 : ¬ d = '#' := fun e => absurd (e ▸ hd) (by decide)
      have h2 : ¬ d = 'b' := fun e => absurd (e ▸ hd) (by decide)
      simp [parseNote, hL, h1, h2, hoct, accShift]
  · simp [parseNote, hL, hoct, accShift]
  · simp [parseNote, hL, hoct, accShift]

theorem parseNote_some_decomp (cs : List Char) (h : (parseNote cs).isSome = true) :
    ∃ L acc ds, cs = L :: (acc ++ ds) ∧ isNoteLetter L = true ∧
      (acc = [] ∨ acc = ['#'] ∨ acc = ['b']) ∧ ds ≠ [] ∧ ∀ c ∈ ds, isDigitC c = true := by
  match cs with
  | [] => simp [parseNote] at h
  | c :: rest =>
    by_cases hL : isNoteLetter c = true
    · match rest with
      | [] => simp [parseNote, hL] at h
      | a :: ds0 =>
        by_cases ha : a = '#'
        · subst ha
          simp only [parseNote, hL, if_true, if_pos rfl, Option.isSome_map'] at h
          obtain ⟨hne, hdig⟩ := (octDigits_isSome_iff ds0).mp h
          exact ⟨c, ['#'], ds0, rfl, hL, Or.inr (Or.inl rfl), hne, hdig⟩
        · by_cases hb : a = 'b'
          · subst hb
            simp only [parseNote, hL, if_true, ha, if_false, if_pos rfl,
              Option.isSome_map'] at h
            obtain ⟨hne, hdig⟩ := (octDigits_isSome_iff ds0).mp h
            exact ⟨c, ['b'], ds0, rfl, hL, Or.inr (Or.inr rfl), hne, hdig⟩
          · simp only [parseNote, hL, if_true, ha, hb, if_false, Option.isSome_map'] at h
            obtain ⟨hne, hdig⟩ := (octDigits_isSome_iff (a :: ds0)).mp h
            exact ⟨c, [], a :: ds0, rfl, hL, Or.inl rfl, by simp, hdig⟩
    · simp [parseNote, hL] at h

/-- **C7.** `noteToFrequency` fails (throws `Invalid note`) exactly on tokens
that do not match the grammar `[A-G](#|b)?[0-9]+`; in particular it fails on
`""`, `"H4"`, `"C##4"`, `"C"` and lowercase `"c4"`. -/
theorem noteToFrequency_grammar_iff :
    (∀ s, noteToFrequency s = none ↔ ¬ matchesGrammar s)
      ∧ noteToFrequency "" = none ∧ noteToFrequency "H4" = none
      ∧ noteToFrequency "C##4" = none ∧ noteToFrequency "C" = none
      ∧ noteToFrequency "c4" = none := by
  refine ⟨?_, rfl, rfl, rfl, rfl, rfl⟩
  intro s
  unfold noteToFrequency midiOfNote
  rw [Option.map_eq_none', Option.map_eq_none']
  constructor
  · intro h hm
    obtain ⟨L, acc, ds, hdata, hL, hacc, hne, hds⟩ := hm
    rw [hdata, parseNote_decomp L acc ds hL hacc hne hds] at h
    exact Option.some_ne_none _ h
  · intro h
    cases hp : parseNote s.data with
    | none => rfl
    | some v =>
      have hs : (parseNote s.data).isSome = true := by rw [hp]; rfl
      exact absurd (parseNote_some_decomp s.data hs) h

/-- Witness for `noteToFrequency_grammar_iff`: the token `H4` does not match
the note grammar. -/
theorem noteToFrequency_grammar_iff_witness : ¬ matchesGrammar "H4" :=
  (noteToFrequency_grammar_iff.1 "H4").mp rfl

/-- **C2.** For every token matching the grammar, `noteToFrequency` returns
`440 * 2^((semitone - 69)/12)` with
`semitone = (octave + 1) * 12 + base_offset + accidental shift` over the base
offset table {C:0, D:2, E:4, F:5, G:7, A:9, B:11}; `noteToFrequency "A4"` is
exactly 440, and the result is positive whenever a frequency is returned. -/
theorem noteToFrequency_formula :
    (∀ (L : Char) (acc ds : List Char),
        isNoteLetter L = true →
        (acc = [] ∨ acc = ['#'] ∨ acc = ['b']) →
        ds ≠ [] →
        (∀ c ∈ ds, isDigitC c = true) →
        noteToFrequency (List.asString (L :: (acc ++ ds)))
          = some (440 * (2 : ℝ) ^
              ((((((natOfDigits (ds.map digitVal) : ℤ) + 1) * 12
                  + specBaseOffset L + accShift acc : ℤ) : ℝ) - 69) / 12)))
      ∧ noteToFrequency "A4" = some 440
      ∧ ∀ s r, noteToFrequency s = some r → 0 < r := by
  refine ⟨?_, ?_, ?_⟩
  · intro L acc ds hL hacc hne hds
    have hpn := parseNote_decomp L acc ds hL hacc hne hds
    unfold noteToFrequency midiOfNote
    rw [show (List.asString (L :: (acc ++ ds))).data = L :: (acc ++ ds) from rfl, hpn]
    rfl
  · have h69 : midiOfNote "A4" = some 69 := rfl
    unfold noteToFrequency
    rw [h69]
    have : freqOfMidi 69 = 440 := by
      unfold freqOfMidi
      norm_num
    rw [Option.map_some', this]
  · intro s r h
    unfold noteToFrequency at h
    cases hm : midiOfNote s with
    | none => rw [hm] at h; simp at h
    | some m =>
      rw [hm, Option.map_some', Option.some_inj] at h
      rw [← h]
      unfold freqOfMidi
      positivity

/-- Witness for `noteToFrequency_formula` at the concrete token `C#4`. -/
theorem noteToFrequency_formula_witness :
    noteToFrequency (List.asString ['C', '#', '4'])
      = some (440 * (2 : ℝ) ^
          ((((((natOfDigits (['4'].map digitVal) : ℤ) + 1) * 12
              + specBaseOffset 'C' + accShift ['#'] : ℤ) : ℝ) - 69) / 12)) :=
  noteToFrequency_formula.1 'C' ['#'] ['4'] (by decide) (Or.inr (Or.inl rfl))
    (by decide) (by decide)

/-- **C8.** Enharmonic equivalence: `C#4` and `Db4` resolve to the same
frequency, and more generally any two tokens resolving to the same semitone
index yield the same frequency. -/
theorem noteToFrequency_enharmonic :
    noteToFrequency "C#4" = noteToFrequency "Db4"
      ∧ ∀ t1 t2 m, midiOfNote t1 = some m → midiOfNote t2 = some m →
          noteToFrequency t1 = noteToFrequency t2 := by
  constructor
  · show (midiOfNote "C#4").map freqOfMidi = (midiOfNote "Db4").map freqOfMidi
    rw [show midiOfNote "C#4" = some 61 from rfl, show midiOfNote "Db4" = some 61 from rfl]
  · intro t1 t2 m h1 h2
    unfold noteToFrequency
    rw [h1, h2]

/-- Witness for `noteToFrequency_enharmonic`: both `C#4` and `Db4` resolve to
semitone index 61, hence to the same frequency. -/
theorem noteToFrequency_enharmonic_witness :
    noteToFrequency "C#4" = noteToFrequency "Db4" :=
  noteToFrequency_enharmonic.2 "C#4" "Db4" 61 (by decide) (by decide)

theorem playSong_eq_of_even (data : String) (h : (tokenize data).length % 2 = 0) :
    playSong data =
      ((schedulePairs (tokenize data) (.num 0)).1,
        match (schedulePairs (tokenize data) (.num 0)).2 with
        | none => Outcome.ok
        | some e => Outcome.errorAlert e) := by
  unfold playSong
  have h' : ¬ (tokenize data).length % 2 ≠ 0 := by omega
  rw [if_neg h']
  show (match (schedulePairs (tokenize data) (JsNum.num 0)).2 with
        | none => ((schedulePairs (tokenize data) (JsNum.num 0)).1, Outcome.ok)
        | some e => ((schedulePairs (tokenize data) (JsNum.num 0)).1, Outcome.errorAlert e))
      = _
  cases (schedulePairs (tokenize data) (JsNum.num 0)).2 <;> rfl

theorem isWs_eq_false_of_digit (c : Char) (h : isDigitC c = true) : isWs c = false := by
  have h' : '0' ≤ c ∧ c ≤ '9' := by
    simpa only [isDigitC, Bool.and_eq_true, decide_eq_true_eq] using h
  have h1 : 48 ≤ c.toNat := Char.le_def.mp h'.1
  have h2 : c.toNat ≤ 57 := Char.le_def.mp h'.2
  rw [Bool.eq_false_iff]
  intro hw
  simp only [isWs, Bool.or_eq_true, Bool.and_eq_true, decide_eq_true_eq] at hw
  omega

theorem takeDigits_digits_append :
    ∀ (ds rest : List Char), (∀ c ∈ ds, isDigitC c = true) →
      (∀ j js, rest = j :: js → isDigitC j = false) →
      takeDigits (ds ++ rest) = (ds.map digitVal, rest)
  | [], rest, _, hrest => by
    cases rest with
    | nil => rfl
    | cons j js => simp [takeDigits, hrest j js rfl]
  | d :: ds, rest, hds, hrest => by
    have hd : isDigitC d = true := hds d (by simp)
    have ih := takeDigits_digits_append ds rest (fun c hc => hds c (by simp [hc])) hrest
    simp [takeDigits, hd, ih]

theorem applyExponent_zero (q : ℚ) : applyExponent q 0 = q := by
  unfold applyExponent pow10
  norm_num

theorem parseDecimal_numericHead (ip fp junk : List Char) (dotted : Bool)
    (hip0 : ip ≠ []) (hip : ∀ c ∈ ip, isDigitC c = true)
    (hfp : ∀ c ∈ fp, isDigitC c = true)
    (hud : dotted = false → fp = [])
    (hjunk : ∀ j js, junk = j :: js →
      isDigitC j = false ∧ j ≠ '.' ∧ j ≠ 'e' ∧ j ≠ 'E') :
    parseDecimal (ip ++ (if dotted then '.' :: fp else []) ++ junk)
      = some ((natOfDigits (ip.map digitVal) : ℚ)
          + (natOfDigits (fp.map digitVal) : ℚ) / (pow10 fp.length : ℚ)) := by
  have hjunkd : ∀ j js, junk = j :: js → isDigitC j = false :=
    fun j js h => (hjunk j js h).1
  have hipe : (ip.map digitVal).isEmpty = false := by
    cases ip with
    | nil => exact absurd rfl hip0
    | cons a l => rfl
  cases dotted with
  | true =>
    show parseDecimal (ip ++ ('.' :: fp) ++ junk) = _
    rw [List.append_assoc, List.cons_append]
    have ht1 : takeDigits (ip ++ '.' :: (fp ++ junk))
        = (ip.map digitVal, '.' :: (fp ++ junk)) :=
      takeDigits_digits_append ip _ hip
        (fun j js h => by
          injection h with h1 _
          rw [← h1]
          decide)
    have ht2 : takeDigits (fp ++ junk) = (fp.map digitVal, junk) :=
      takeDigits_digits_append fp junk hfp hjunkd
    cases junk with
    | nil =>
      simp only [List.append_nil] at ht1 ht2
      simp [parseDecimal, ht1, ht2, hipe, applyExponent_zero]
    | cons j js =>
      obtain ⟨-, -, hje, hjE⟩ := hjunk j js rfl
      simp [parseDecimal, ht1, ht2, hipe, hje, hjE, applyExponent_zero]
  | false =>
    have hfp0 : fp = [] := hud rfl
    subst hfp0
    show parseDecimal (ip ++ [] ++ junk) = _
    rw [List.append_nil]
    have ht1 : takeDigits (ip ++ junk) = (ip.map digitVal, junk) :=
      takeDigits_digits_append ip junk hip hjunkd
    cases junk with
    | nil =>
      rw [List.append_nil] at ht1
      simp [parseDecimal, ht1, hipe, applyExponent_zero]
    | cons j js =>
      obtain ⟨-, hjdot, hje, hjE⟩ := hjunk j js rfl
      simp [parseDecimal, ht1, hipe, hjdot, hje, hjE, applyExponent_zero]

theorem parseFloat_eq_num (cs : List Char) (d : Char) (rest : List Char) (q : ℚ)
    (hcons : cs = d :: rest) (hd : isDigitC d = true)
    (hpd : parseDecimal cs = some q) :
    parseFloat (String.mk cs) = .num q := by
  subst hcons
  have hw : isWs d = false := isWs_eq_false_of_digit d hd
  have hdrop : (String.mk (d :: rest)).data.dropWhile isWs = d :: rest := by
    show List.dropWhile isWs (d :: rest) = d :: rest
    rw [List.dropWhile_cons, hw]
    simp
  have hplus : ¬ d = '+' := fun e => absurd (e ▸ hd) (by decide)
  have hminus : ¬ d = '-' := fun e => absurd (e ▸ hd) (by decide)
  have hI : ¬ ((d :: rest).take 8 = "Infinity".data) := by
    intro h
    have h' : d :: rest.take 7 = 'I' :: "nfinity".data := h
    have hdi : d = 'I' := (List.cons.inj h').1
    exact absurd (hdi ▸ hd) (by decide)
  have hstep : parseFloat (String.mk (d :: rest))
      = (if d = '+' then parseFloatBody rest false
         else if d = '-' then parseFloatBody rest true
         else parseFloatBody (d :: rest) false) := by
    unfold parseFloat
    rw [hdrop]
  rw [hstep, if_neg hplus, if_neg hminus]
  unfold parseFloatBody
  rw [if_neg hI, hpd]
  rfl

/-- **C10.** Duration tokens are parsed with numeric-prefix semantics: a
duration token made of a parseable non-negative decimal prefix (digits,
optionally a dot and further digits) followed by trailing non-numeric
characters parses to the value of the numeric prefix alone — a non-negative
rational — and a one-pair song with a valid note and any duration token
schedules normally, using the parsed value as the event's duration; in
particular `"0.5abc"` parses to 0.5 and `playSong "C4 0.5abc"` succeeds with
one tone of duration 0.5. -/
theorem playSong_duration_numericHead :
    (∀ (ip fp junk : List Char) (dotted : Bool),
        ip ≠ [] →
        (∀ c ∈ ip, isDigitC c = true) →
        (∀ c ∈ fp, isDigitC c = true) →
        (dotted = false → fp = []) →
        (∀ j js, junk = j :: js →
          isDigitC j = false ∧ j ≠ '.' ∧ j ≠ 'e' ∧ j ≠ 'E') →
        ∃ q, 0 ≤ q
          ∧ parseFloat (String.mk (ip ++ (if dotted then '.' :: fp else []) ++ junk))
              = .num q
          ∧ parseFloat (String.mk (ip ++ (if dotted then '.' :: fp else [])))
              = .num q)
      ∧ (∀ (data note durTok : String) (m : ℤ),
          tokenize data = [note, durTok] → midiOfNote note = some m →
          playSong data = ([⟨m, parseFloat durTok, .num 0⟩], Outcome.ok))
      ∧ parseFloat "0.5abc" = .num (1/2)
      ∧ playSong "C4 0.5abc" = ([⟨60, .num (1/2), .num 0⟩], Outcome.ok) := by
  refine ⟨?_, ?_, ?_, ?_⟩
  · intro ip fp junk dotted hip0 hip hfp hud hjunk
    obtain ⟨d, ip', rfl⟩ : ∃ d ip', ip = d :: ip' := by
      cases ip with
      | nil => exact absurd rfl hip0
      | cons a b => exact ⟨a, b, rfl⟩
    have hd : isDigitC d = true := hip d (by simp)
    refine ⟨(natOfDigits ((d :: ip').map digitVal) : ℚ)
        + (natOfDigits (fp.map digitVal) : ℚ) / (pow10 fp.length : ℚ), ?_, ?_, ?_⟩
    · positivity
    · exact parseFloat_eq_num _ d (ip' ++ (if dotted then '.' :: fp else []) ++ junk) _
        (by simp) hd
        (parseDecimal_numericHead (d :: ip') fp junk dotted hip0 hip hfp hud hjunk)
    · have h0 := parseDecimal_numericHead (d :: ip') fp [] dotted hip0 hip hfp hud
        (fun j js h => by simp at h)
      rw [List.append_nil] at h0
      exact parseFloat_eq_num _ d (ip' ++ (if dotted then '.' :: fp else [])) _
        (by simp) hd h0
  · intro data note durTok m htok hm
    have heven : (tokenize data).length % 2 = 0 := by rw [htok]; simp
    rw [playSong_eq_of_even data heven, htok]
    have hsp : schedulePairs [note, durTok] (.num 0)
        = ([⟨m, parseFloat durTok, .num 0⟩], none) := by
      simp only [schedulePairs, hm]
    rw [hsp]
  · with_unfolding_all decide
  · with_unfolding_all decide

/-- Witness for `playSong_duration_numericHead` at the duration token `0.5abc`
(numeric prefix `0.5`, trailing characters `abc`) and the song `C4 0.5abc`. -/
theorem playSong_duration_numericHead_witness :
    (∃ q, 0 ≤ q
        ∧ parseFloat (String.mk (['0'] ++ (if true then '.' :: ['5'] else [])
            ++ ['a', 'b', 'c'])) = .num q
        ∧ parseFloat (String.mk (['0'] ++ (if true then '.' :: ['5'] else [])))
            = .num q)
      ∧ playSong "C4 0.5abc" = ([⟨60, parseFloat "0.5abc", .num 0⟩], Outcome.ok) :=
  ⟨playSong_duration_numericHead.1 ['0'] ['5'] ['a', 'b', 'c'] true (by decide) (by decide)
      (by decide) (fun h => absurd h (by decide))
      (fun j js h => by
        injection h with h1 h2
        subst h1
        exact ⟨by decide, by decide, by decide, by decide⟩),
   playSong_duration_numericHead.2.1 "C4 0.5abc" "C4" "0.5abc" 60 (by decide) (by decide)⟩

/-- **C6.** Whenever tokenization yields an odd number of tokens, `playSong`
takes the malformed-song alert branch (a user-facing message, not a crash)
and issues no tone instruction to the backend. -/
theorem playSong_odd_tokens_malformed (data : String)
    (h : (tokenize data).length % 2 = 1) :
    playSong data = ([], Outcome.malformedAlert) := by
  have hne : (tokenize data).length % 2 ≠ 0 := by omega
  simp [playSong, hne]

/-- Witness for `playSong_odd_tokens_malformed` at `C4 0.5 D4` (three
tokens). -/
theorem playSong_odd_tokens_malformed_witness :
    (tokenize "C4 0.5 D4").length % 2 = 1
      ∧ playSong "C4 0.5 D4" = ([], Outcome.malformedAlert) :=
  ⟨by decide, playSong_odd_tokens_malformed "C4 0.5 D4" (by decide)⟩

theorem schedulePairs_error_invalidNote :
    ∀ (parts : List String) (t : JsNum) (e : JsError),
      (schedulePairs parts t).2 = some e →
      ∃ tok, e = .invalidNote tok ∧ midiOfNote tok = none
  | [], _, _, h => by simp [schedulePairs] at h
  | [_], _, _, h => by simp [schedulePairs] at h
  | note :: durTok :: rest, t, e, h => by
    simp only [schedulePairs] at h
    cases hm : midiOfNote note with
    | none =>
      rw [hm] at h
      simp only [Option.some_inj] at h
      exact ⟨note, h.symm, hm⟩
    | some m =>
      rw [hm] at h
      exact schedulePairs_error_invalidNote rest (t.add (parseFloat durTok)) e h

/-- **C9.** `playSong` returns normally to its caller on every input string:
each invocation ends in one of the three user-visible outcomes (normal
return, the pairing alert, or the catch-all error alert), and when the error
alert fires the caught exception is the resolver's invalid-note error —
surfaced as a message, never propagated. -/
theorem playSong_total_outcomes (data : String) :
    ∃ evs o, playSong data = (evs, o)
      ∧ (o = Outcome.ok ∨ o = Outcome.malformedAlert
          ∨ ∃ tok, o = Outcome.errorAlert (.invalidNote tok) ∧ noteToFrequency tok = none) := by
  by_cases hodd : (tokenize data).length % 2 = 0
  · rw [playSong_eq_of_even data hodd]
    cases herr : (schedulePairs (tokenize data) (.num 0)).2 with
    | none => exact ⟨_, _, rfl, Or.inl rfl⟩
    | some e =>
      obtain ⟨tok, rfl, hmn⟩ := schedulePairs_error_invalidNote _ _ e herr
      refine ⟨_, _, rfl, Or.inr (Or.inr ⟨tok, rfl, ?_⟩)⟩
      unfold noteToFrequency
      rw [hmn]
      rfl
  · have h1 : (tokenize data).length % 2 = 1 := by omega
    exact ⟨[], .malformedAlert, playSong_odd_tokens_malformed data h1, Or.inr (Or.inl rfl)⟩

/-- Witness for `playSong_total_outcomes` at a song with an invalid note. -/
theorem playSong_total_outcomes_witness :
    ∃ evs o, playSong "C4 0.5 H4 0.5" = (evs, o)
      ∧ (o = Outcome.ok ∨ o = Outcome.malformedAlert
          ∨ ∃ tok, o = Outcome.errorAlert (.invalidNote tok) ∧ noteToFrequency tok = none) :=
  playSong_total_outcomes "C4 0.5 H4 0.5"

theorem validPairs_even :
    ∀ (parts : List String), validPairs parts = true → parts.length % 2 = 0
  | [], _ => rfl
  | [_], h => by simp [validPairs] at h
  | _ :: _ :: rest, h => by
    have h' : validPairs rest = true := by
      simp only [validPairs, Bool.and_eq_true] at h
      exact h.2
    have := validPairs_even rest h'
    simp only [List.length_cons]
    omega

theorem schedulePairs_valid :
    ∀ (parts : List String) (t : JsNum), validPairs parts = true →
      (schedulePairs parts t).2 = none
        ∧ pairCorrespondence parts (schedulePairs parts t).1
        ∧ offsetsChained t (schedulePairs parts t).1
  | [], t, _ => by
    refine ⟨rfl, ?_, ?_⟩ <;> exact trivial
  | [_], _, h => by simp [validPairs] at h
  | n :: d :: rest, t, h => by
    obtain ⟨⟨hm, _⟩, hrest⟩ :
        ((midiOfNote n).isSome = true ∧ validDur (parseFloat d) = true)
          ∧ validPairs rest = true := by
      simpa only [validPairs, Bool.and_eq_true] using h
    obtain ⟨m, hm'⟩ := Option.isSome_iff_exists.mp hm
    have ih := schedulePairs_valid rest (t.add (parseFloat d)) hrest
    simp only [schedulePairs, hm']
    exact ⟨ih.1, ⟨hm'.symm ▸ rfl, rfl, ih.2.1⟩, ⟨rfl, ih.2.2⟩⟩

/-- **C1.** For every valid song string (pairs of valid note and duration
tokens — which forces an even token count), `playSong` succeeds and builds
exactly one event per (note, duration) pair in input order, the first event
starting at offset zero from the scheduling origin and each subsequent event
starting at the previous event's startOffset plus its duration. -/
theorem playSong_valid_schedule (data : String)
    (h : validPairs (tokenize data) = true) :
    ∃ evs, playSong data = (evs, Outcome.ok)
      ∧ pairCorrespondence (tokenize data) evs
      ∧ offsetsChained (JsNum.num 0) evs := by
  have heven := validPairs_even (tokenize data) h
  have hs := schedulePairs_valid (tokenize data) (.num 0) h
  refine ⟨(schedulePairs (tokenize data) (.num 0)).1, ?_, hs.2.1, hs.2.2⟩
  rw [playSong_eq_of_even data heven, hs.1]

/-- Witness for `playSong_valid_schedule` at the song `C4 0.5 D4 0.5`. -/
theorem playSong_valid_schedule_witness :
    validPairs (tokenize "C4 0.5 D4 0.5") = true
      ∧ ∃ evs, playSong "C4 0.5 D4 0.5" = (evs, Outcome.ok)
          ∧ pairCorrespondence (tokenize "C4 0.5 D4 0.5") evs
          ∧ offsetsChained (JsNum.num 0) evs :=
  ⟨by with_unfolding_all decide,
   playSong_valid_schedule "C4 0.5 D4 0.5" (by with_unfolding_all decide)⟩

end Chiptunes
